import Mathlib

/-!
# Verification of the MindCare conversational pipeline

A shallow embedding of `MindCare.py`: an emotional-support chat pipeline
that classifies user input into one of seven emotion categories via an
external oracle, gates a risk detector on negative emotions, synthesizes a
response with bounded recent context, and logs each turn to a file store.

The external OpenAI service is modelled as an oracle
`OracleCall → Option String` (`none` = transport failure).  The `logs/`
directory is modelled as `Option (List LogFile)` (`none` = the directory
does not exist).  `datetime.now()` is passed in explicitly as the `now`
timestamp string.  Python string operations (`strip`, `lower`, `in`,
`endswith`, `replace`) are modelled over the character list `String.data`;
`re.search(r"\d+")` is modelled by scanning for the first maximal run of
ASCII digit characters.  The SHA-256 hasher `encrypt_name` is kept as an
explicit function parameter `encrypt : String → String`; no claim below
depends on more than its determinism.
-/

deriving instance DecidableEq for Except

namespace MindCare

/-- Python `str.strip`: drop whitespace from both ends (modelled for the
common ASCII whitespace characters). -/
def is_space (c : Char) : Bool :=
  c == ' ' || c == '\t' || c == '\n' || c == '\r'

def str_strip (s : String) : String :=
  ⟨((s.data.dropWhile is_space).reverse.dropWhile is_space).reverse⟩

/-- Python `str.lower` (character-wise). -/
def str_lower (s : String) : String :=
  ⟨s.data.map Char.toLower⟩

/-- Python `needle in haystack` on strings: substring containment. -/
def contains_sub (pat : List Char) (s : List Char) : Bool :=
  pat.isPrefixOf s ||
    match s with
    | [] => false
    | _ :: rest => contains_sub pat rest

/-- Python `str.endswith`. -/
def str_endswith (s suffix : String) : Bool :=
  suffix.data.isSuffixOf s.data

/-- Python `str.replace pat ""` on character lists (delete every
occurrence of `pat`); used only with the nonempty pattern `".json"`.
The `fuel` argument (instantiated with the list's length) makes the
recursion structural: each match consumes at least one character. -/
def erase_pat (pat : List Char) : Nat → List Char → List Char
  | _, [] => []
  | 0, s => s
  | fuel + 1, c :: rest =>
    if pat.isPrefixOf (c :: rest) ∧ pat ≠ [] then
      erase_pat pat fuel ((c :: rest).drop pat.length)
    else
      c :: erase_pat pat fuel rest

def str_replace_empty (s pat : String) : String :=
  ⟨erase_pat pat.data s.data.length s.data⟩

/-- `re.search(r"\d+", text)` followed by `int(...)`: the first maximal
run of digit characters, as a number (`extract_integer`, MindCare.py
lines 25–27). -/
def digits_to_nat (l : List Char) : Nat :=
  l.foldl (fun acc c => 10 * acc + (c.toNat - 48)) 0

def first_digit_run : List Char → Option (List Char)
  | [] => none
  | c :: rest =>
    if c.isDigit then some (c :: rest.takeWhile Char.isDigit)
    else first_digit_run rest

def extract_integer (text : String) : Option Nat :=
  (first_digit_run text.data).map digits_to_nat

/-- The fixed seven-category emotion table (`emotion_mapping`,
MindCare.py lines 10–18); `none` models a `KeyError` on `dict[...]`
access for other keys. -/
def emotion_mapping (score : Nat) : Option String :=
  if score = 1 then some "공포"
  else if score = 2 then some "놀람"
  else if score = 3 then some "중립"
  else if score = 4 then some "혐오"
  else if score = 5 then some "분노"
  else if score = 6 then some "슬픔"
  else if score = 7 then some "행복"
  else none

/-- `is_negative_emotion` (MindCare.py lines 50–51): `score in [1, 4, 5, 6]`. -/
def is_negative_emotion (score : Nat) : Bool :=
  [1, 4, 5, 6].contains score

/-- Python truthiness of the optional `username` argument
(`None` and `""` are falsy). -/
def truthy : Option String → Bool
  | none => false
  | some s => !s.isEmpty

/-- The five oracle call sites of MindCare.py, each tagged with the exact
prompt string it sends. -/
inductive OracleCall where
  | preprocess (prompt : String)
  | sentiment (prompt : String)
  | warning (prompt : String)
  | respond (prompt : String)
  | farewell (prompt : String)
deriving DecidableEq, Repr

/-- The external OpenAI service: prompt in, text out; `none` models a
transport/API failure. -/
def Oracle : Type := OracleCall → Option String

/-- Python exceptions that can escape the pipeline functions. -/
inductive PyErr where
  | oracleFailure
  | fileNotFound
  | jsonDecodeError
  | keyError
deriving DecidableEq, Repr

/-- The parsed JSON content of one log file; every field is optional
because retrieval reads them with `dict.get`. -/
structure LogData where
  timestamp : Option String
  sentiment_score : Option String
  response : Option String
  user_input : Option String
  username_hash : Option String
deriving DecidableEq, Repr

/-- One file in the `logs/` directory: its name and its parse result
(`none` = `json.load` raises, i.e. a malformed record). -/
structure LogFile where
  name : String
  content : Option LogData
deriving DecidableEq, Repr

/-- One entry of the dict returned by `load_previous_logs`. -/
structure LogEntry where
  input : String
  response : String
deriving DecidableEq, Repr

/-- The prompt built by `preprocess_input_with_openai` (line 31). -/
def preprocess_prompt (text : String) : String :=
  "다음 문장을 정리해 주세요: " ++ text

/-- The prompt built by `get_sentiment_score` (lines 40–43). -/
def sentiment_prompt (text : String) : String :=
  "다음 문장의 감정을 1(공포), 2(놀람), 3(중립), 4(혐오), 5(분노), 6(슬픔), 7(행복)으로 " ++
    "정수형으로 분류해 주세요. 결과는 정수형 숫자만 출력하세요: " ++ text

/-- The prompt built by `is_warning_signal` (lines 55–58). -/
def warning_prompt (text : String) : String :=
  "다음 문장에서 자해, 자살, 극단적인 감정과 관련된 위험 신호가 있는 경우 \x27true\x27, 없으면 \x27false\x27만 답하세요: " ++
    text

/-- `preprocess_input_with_openai` (lines 29–36): ask the oracle to clean
the input, return the stripped reply.  The second component is the trace
of oracle calls attempted. -/
def preprocess_input_with_openai (oracle : Oracle) (text : String) :
    Except PyErr String × List OracleCall :=
  let call := OracleCall.preprocess (preprocess_prompt text)
  match oracle call with
  | none => (Except.error PyErr.oracleFailure, [call])
  | some reply => (Except.ok (str_strip reply), [call])

/-- `get_sentiment_score` (lines 38–48): ask for a 1–7 classification and
extract the first integer from the stripped reply. -/
def get_sentiment_score (oracle : Oracle) (text : String) :
    Except PyErr (Option Nat) × List OracleCall :=
  let call := OracleCall.sentiment (sentiment_prompt text)
  match oracle call with
  | none => (Except.error PyErr.oracleFailure, [call])
  | some reply => (Except.ok (extract_integer (str_strip reply)), [call])

/-- `is_warning_signal` (lines 53–64): strict risk question; `true` iff the
lower-cased stripped reply contains the literal token `"true"`. -/
def is_warning_signal (oracle : Oracle) (user_input : String) :
    Except PyErr Bool × List OracleCall :=
  let call := OracleCall.warning (warning_prompt user_input)
  match oracle call with
  | none => (Except.error PyErr.oracleFailure, [call])
  | some reply =>
    (Except.ok (contains_sub "true".data (str_lower (str_strip reply)).data), [call])

/-- Insert into a Python dict modelled as an association list: replace in
place if the key is present, else append. -/
def dict_insert (logs : List (String × LogEntry)) (k : String) (v : LogEntry) :
    List (String × LogEntry) :=
  if logs.any (fun p => p.1 == k) then
    logs.map (fun p => if p.1 == k then (k, v) else p)
  else
    logs ++ [(k, v)]

/-- Insertion into a list sorted by `le` (used to model Python `sorted`;
on duplicate-free keys every correct sort agrees). -/
def insert_by (le : α → α → Bool) (a : α) : List α → List α
  | [] => [a]
  | b :: t => if le a b then a :: b :: t else b :: insert_by le a t

def sort_by (le : α → α → Bool) : List α → List α
  | [] => []
  | a :: t => insert_by le a (sort_by le t)

/-- Lexicographic comparison of character lists by code point — the
order Python uses on `str` (and the order `String ≤` denotes, see
`chars_le_iff` below); written as an executable recursion. -/
def chars_le : List Char → List Char → Bool
  | [], _ => true
  | _ :: _, [] => false
  | a :: as, b :: bs =>
    if a.toNat < b.toNat then true
    else if b.toNat < a.toNat then false
    else chars_le as bs

/-- Filename order used by the scan: `sorted(os.listdir("logs"),
reverse=True)` — descending. -/
def file_desc (a b : LogFile) : Bool :=
  chars_le b.name.data a.name.data

/-- Final presentation order: `dict(sorted(logs.items()))` — ascending by
timestamp key. -/
def entry_asc (a b : String × LogEntry) : Bool :=
  chars_le a.1.data b.1.data

/-- The timestamp key chosen for a scanned record:
`data.get("timestamp", filename.replace(".json", ""))` (line 103). -/
def ts_key (f : LogFile) (d : LogData) : String :=
  d.timestamp.getD (str_replace_empty f.name ".json")

/-- The dict value stored for a scanned record (lines 104–107):
`{"input": data.get("user_input", ""), "response": data.get("response", "")}`. -/
def entry_of (d : LogData) : LogEntry :=
  ⟨d.user_input.getD "", d.response.getD ""⟩

/-- The body of the `for filename in sorted(...)` loop of
`load_previous_logs` (lines 95–109): skip non-`.json` names, `json.load`
each remaining file (raising on malformed content), keep records whose
`username_hash` matches, and break once `limit` entries are collected. -/
def scan_logs (uhash : String) (limit : Nat) :
    List LogFile → List (String × LogEntry) →
    Except PyErr (List (String × LogEntry))
  | [], logs => Except.ok logs
  | f :: rest, logs =>
    if str_endswith f.name ".json" then
      match f.content with
      | none => Except.error PyErr.jsonDecodeError
      | some data =>
        if data.username_hash == some uhash then
          if limit ≤ (dict_insert logs (ts_key f data) (entry_of data)).length then
            Except.ok (dict_insert logs (ts_key f data) (entry_of data))
          else
            scan_logs uhash limit rest (dict_insert logs (ts_key f data) (entry_of data))
        else
          scan_logs uhash limit rest logs
    else
      scan_logs uhash limit rest logs

/-- `load_previous_logs` (lines 82–112).  `dir = none` models a missing
`logs/` directory, on which `os.listdir` raises `FileNotFoundError`. -/
def load_previous_logs (encrypt : String → String) (dir : Option (List LogFile))
    (username : Option String) (limit : Nat) :
    Except PyErr (List (String × LogEntry)) :=
  if truthy username then
    match dir with
    | none => Except.error PyErr.fileNotFound
    | some files =>
      match scan_logs (encrypt (username.getD "")) limit (sort_by file_desc files) [] with
      | Except.error e => Except.error e
      | Except.ok logs => Except.ok (sort_by entry_asc logs)
  else
    Except.ok []

/-- Writing `logs/{timestamp}.json`: overwrite a file of the same name,
else add a new one. -/
def write_file (files : List LogFile) (name : String) (data : LogData) :
    List LogFile :=
  if files.any (fun f => f.name == name) then
    files.map (fun f => if f.name == name then ⟨name, some data⟩ else f)
  else
    files ++ [⟨name, some data⟩]

/-- The `username_hash` field written by `log_interaction` (line 76):
`encrypt_name(username) if username else None`. -/
def hash_of (encrypt : String → String) (username : Option String) :
    Option String :=
  if truthy username then some (encrypt (username.getD "")) else none

/-- `log_interaction` (lines 69–80).  `emotion_mapping[sentiment_score]`
raises `KeyError` for a code outside 1–7 — before `os.makedirs` and the
file write, so on that error the store is untouched. -/
def log_interaction (encrypt : String → String) (now : String)
    (dir : Option (List LogFile)) (user_input : String)
    (sentiment_score : Nat) (response_text : String)
    (username : Option String) : Except PyErr (List LogFile) :=
  match emotion_mapping sentiment_score with
  | none => Except.error PyErr.keyError
  | some label =>
    let log_data : LogData :=
      ⟨some now, some label, some response_text, some user_input,
        hash_of encrypt username⟩
    Except.ok (write_file (dir.getD []) (now ++ ".json") log_data)

/-- One rendered context line of `generate_response` (line 125). -/
def context_line (p : String × LogEntry) : String :=
  "- [" ++ p.1 ++ "] 사용자: " ++ p.2.input ++ "\n  응답: " ++ p.2.response

/-- The context block of `generate_response` (lines 120–126). -/
def context_lines_of (logs : List (String × LogEntry)) : List String :=
  if logs.isEmpty then []
  else
    "이전 상담 대화 기록은 다음과 같습니다:" :: (logs.map context_line ++ [""])

def crisis_instruction : String :=
  "자살, 자해 등 위험 신호가 감지되었습니다. 이에 대한 적절한 응답을 생성해 주세요. " ++
    "특히 상담센터 정보와 같은 도움 되는 정보를 제공해 주세요."

def negative_instruction : String :=
  "사용자가 부정적인 감정을 느끼고 있습니다. 이에 대한 적절한 응답을 생성해 주세요."

def empathy_instruction : String :=
  "사용자의 감정에 적절한 공감 메시지를 생성해 주세요."

def join_nl (lines : List String) : String :=
  ⟨List.intercalate "\n".data (lines.map String.data)⟩

/-- The full synthesis prompt of `generate_response` (lines 139–143). -/
def full_prompt_of (logs : List (String × LogEntry)) (instruction : String)
    (dominant_emotion : String) (user_input : String) : String :=
  join_nl (context_lines_of logs ++
    [instruction,
     "현재 사용자는 특히 \x27" ++ dominant_emotion ++ "\x27 감정을 느끼고 있습니다.",
     "이번 사용자 입력: " ++ user_input])

/-- `generate_response` (lines 115–149): read recent context, gate the
risk detector on negative emotion, build the full prompt and ask the
oracle for a reply.  Returns the result and the trace of oracle calls
attempted (in order). -/
def generate_response (encrypt : String → String) (oracle : Oracle)
    (dir : Option (List LogFile)) (sentiment_score : Nat)
    (user_input : String) (username : Option String) :
    Except PyErr String × List OracleCall :=
  let dominant_emotion := (emotion_mapping sentiment_score).getD "알 수 없음"
  match load_previous_logs encrypt dir username 3 with
  | Except.error e => (Except.error e, [])
  | Except.ok previous_logs =>
    let branch : Except PyErr String × List OracleCall :=
      if is_negative_emotion sentiment_score then
        match is_warning_signal oracle user_input with
        | (Except.error e, wtrace) => (Except.error e, wtrace)
        | (Except.ok warn, wtrace) =>
          if warn then (Except.ok crisis_instruction, wtrace)
          else (Except.ok negative_instruction, wtrace)
      else
        (Except.ok empathy_instruction, [])
    match branch with
    | (Except.error e, wtrace) => (Except.error e, wtrace)
    | (Except.ok instruction, wtrace) =>
      let call := OracleCall.respond
        (full_prompt_of previous_logs instruction dominant_emotion user_input)
      match oracle call with
      | none => (Except.error PyErr.oracleFailure, wtrace ++ [call])
      | some reply => (Except.ok (str_strip reply), wtrace ++ [call])

/-- `analyze_user_input` (lines 152–154). -/
def analyze_user_input (oracle : Oracle) (user_input : String) :
    Except PyErr (Option Nat) × List OracleCall :=
  match preprocess_input_with_openai oracle user_input with
  | (Except.error e, tr) => (Except.error e, tr)
  | (Except.ok cleaned, tr) =>
    match get_sentiment_score oracle cleaned with
    | (r, tr2) => (r, tr ++ tr2)

/-- `run_pipeline` (lines 156–161): classify (falling back to neutral 3
when no integer was extracted), synthesize, then log.  Returns the
result, the log directory after the turn, and the oracle-call trace.  On
any raised exception the directory is returned unchanged — the only write
happens last, inside `log_interaction`. -/
def run_pipeline (encrypt : String → String) (oracle : Oracle)
    (dir : Option (List LogFile)) (now : String) (user_input : String)
    (username : Option String) :
    Except PyErr String × Option (List LogFile) × List OracleCall :=
  match analyze_user_input oracle user_input with
  | (Except.error e, tr) => (Except.error e, dir, tr)
  | (Except.ok s0, tr) =>
    match generate_response encrypt oracle dir (s0.getD 3) user_input username with
    | (Except.error e, tr2) => (Except.error e, dir, tr ++ tr2)
    | (Except.ok response, tr2) =>
      match log_interaction encrypt now dir user_input (s0.getD 3) response username with
      | Except.error e => (Except.error e, dir, tr ++ tr2)
      | Except.ok files2 => (Except.ok response, some files2, tr ++ tr2)

/-- The farewell prompt of `generate_farewell_message` (lines 167–172). -/
def farewell_prompt_of (username : Option String) : String :=
  (if truthy username then "사용자 이름은 " ++ username.getD "" ++ "입니다. " else "") ++
    "지금까지 감정에 대해 충분히 이야기했습니다. " ++
    "이제 대화를 마치려고 합니다. 사용자의 감정을 존중하고 따뜻하게 배웅하는 인사말을 한국어로 자연스럽게 작성해 주세요. " ++
    "2문장 이내로 해주세요."

/-- `generate_farewell_message` (lines 164–178): one oracle call, no
classification, no risk detection, no store access. -/
def generate_farewell_message (oracle : Oracle) (username : Option String) :
    Except PyErr String × List OracleCall :=
  let call := OracleCall.farewell (farewell_prompt_of username)
  match oracle call with
  | none => (Except.error PyErr.oracleFailure, [call])
  | some reply => (Except.ok (str_strip reply), [call])

/-- The termination phrases of `main` (line 187). -/
def farewell_phrases : List String :=
  ["그만할게요", "수고했어요", "고마워요", "안녕", "종료", "bye"]

/-- One iteration of the `main` loop (lines 184–193): strip the raw
input; a termination phrase takes the farewell path (store untouched),
anything else runs the pipeline. -/
def main_turn (encrypt : String → String) (oracle : Oracle)
    (dir : Option (List LogFile)) (now : String) (raw_input : String)
    (username : Option String) :
    Except PyErr String × Option (List LogFile) × List OracleCall :=
  let user_input := str_strip raw_input
  if farewell_phrases.contains (str_lower user_input) then
    match generate_farewell_message oracle username with
    | (r, tr) => (r, dir, tr)
  else
    run_pipeline encrypt oracle dir now user_input username

/-! ### Concrete fixtures (used for witness and counterexample checks) -/

/-- A stand-in for the SHA-256 hasher in concrete runs. -/
def hash_fix : String → String := fun _ => "HASH"

/-- Oracle whose classification reply is the out-of-range digit `"8"`. -/
def oracle_eight : Oracle := fun c =>
  match c with
  | OracleCall.sentiment _ => some "8"
  | _ => some "ok"

/-- Oracle classifying as fear (`"1"`) and denying a risk signal. -/
def oracle_fear : Oracle := fun c =>
  match c with
  | OracleCall.sentiment _ => some "1"
  | OracleCall.warning _ => some "False"
  | _ => some "ok"

/-- Oracle whose classification reply `"모르겠어요"` contains no digits. -/
def oracle_neutral : Oracle := fun c =>
  match c with
  | OracleCall.sentiment _ => some "모르겠어요"
  | _ => some "ok"

/-- Oracle that is entirely unavailable. -/
def oracle_down : Oracle := fun _ => none

/-- Oracle answering the risk question affirmatively. -/
def oracle_yes : Oracle := fun c =>
  match c with
  | OracleCall.warning _ => some " True. "
  | _ => some "ok"

/-- Oracle used on the farewell path. -/
def oracle_bye : Oracle := fun _ => some " 안녕히 가세요 "

/-- A well-formed stored record for the hash `"HASH"`. -/
def file_fix : LogFile :=
  ⟨"20240101_000000.json",
    some ⟨some "20240101_000000", some "중립", some "r", some "i", some "HASH"⟩⟩

/-- A malformed stored record (`json.load` raises on it). -/
def file_bad : LogFile := ⟨"20240101_000000.json", none⟩

/-! ## Helper lemmas -/

theorem str_data_append (a b : String) : (a ++ b).data = a.data ++ b.data := by
  cases a; cases b; rfl

theorem contains_sub_iff (pat s : List Char) :
    contains_sub pat s = true ↔ ∃ l r, s = l ++ pat ++ r := by
  induction s with
  | nil =>
    constructor
    · intro h
      refine ⟨[], [], ?_⟩
      cases pat with
      | nil => rfl
      | cons p ps => simp [contains_sub, List.isPrefixOf] at h
    · rintro ⟨l, r, h⟩
      have h' := h.symm
      simp only [List.append_assoc, List.append_eq_nil] at h'
      obtain ⟨rfl, rfl, rfl⟩ := h'
      decide
  | cons c rest ih =>
    simp only [contains_sub, Bool.or_eq_true, List.isPrefixOf_iff_prefix]
    constructor
    · rintro (⟨t, ht⟩ | h)
      · exact ⟨[], t, by simp [← ht]⟩
      · obtain ⟨l, r, hlr⟩ := ih.mp h
        exact ⟨c :: l, r, by simp [hlr]⟩
    · rintro ⟨l, r, hlr⟩
      cases l with
      | nil =>
        left
        exact ⟨r, by simpa using hlr.symm⟩
      | cons x xs =>
        right
        refine ih.mpr ⟨xs, r, ?_⟩
        simp only [List.cons_append, List.cons.injEq] at hlr
        exact hlr.2

theorem first_digit_run_eq_none (l : List Char)
    (h : ∀ c ∈ l, c.isDigit = false) : first_digit_run l = none := by
  induction l with
  | nil => rfl
  | cons c rest ih =>
    have hc : c.isDigit = false := h c (by simp)
    simp only [first_digit_run, hc, Bool.false_eq_true, if_false]
    exact ih fun x hx => h x (by simp [hx])

theorem extract_integer_eq_none (s : String)
    (h : ∀ c ∈ s.data, c.isDigit = false) : extract_integer s = none := by
  simp [extract_integer, first_digit_run_eq_none s.data h]

theorem emotion_mapping_isSome_iff (score : Nat) :
    (emotion_mapping score).isSome = true ↔ 1 ≤ score ∧ score ≤ 7 := by
  unfold emotion_mapping
  split_ifs <;> (simp_all; try omega)

theorem truthy_some_of_ne (u : String) (hu : u ≠ "") :
    truthy (some u) = true := by
  simp only [truthy, Bool.not_eq_true']
  cases h : u.isEmpty
  · rfl
  · exact absurd ((String.isEmpty_iff u).mp h) hu

/-! ### `chars_le` -/

theorem char_lt_iff (a b : Char) : a < b ↔ a.toNat < b.toNat := by
  rw [Char.lt_def, UInt32.lt_def]
  exact Iff.rfl

theorem chars_le_iff (a b : List Char) : chars_le a b = true ↔ a ≤ b := by
  rw [← not_lt]
  show chars_le a b = true ↔ ¬ List.Lex (· < ·) b a
  induction a generalizing b with
  | nil =>
    cases b with
    | nil =>
      refine iff_of_true rfl ?_
      intro h
      cases h
    | cons y ys =>
      refine iff_of_true rfl ?_
      intro h
      cases h
  | cons x xs ih =>
    cases b with
    | nil =>
      refine iff_of_false (by simp [chars_le]) ?_
      intro h
      exact h List.Lex.nil
    | cons y ys =>
      unfold chars_le
      by_cases hxy : x.toNat < y.toNat
      · rw [if_pos hxy]
        refine iff_of_true rfl ?_
        intro h
        cases h with
        | cons h' => omega
        | rel h' =>
          have := (char_lt_iff y x).mp h'
          simp only [Char.toNat] at *
          omega
      · rw [if_neg hxy]
        by_cases hyx : y.toNat < x.toNat
        · rw [if_pos hyx]
          refine iff_of_false (by simp) ?_
          intro h
          exact h (List.Lex.rel ((char_lt_iff y x).mpr hyx))
        · rw [if_neg hyx]
          have hxyeq : x = y := by
            apply Char.ext
            apply UInt32.ext
            simp only [Char.toNat] at hxy hyx
            omega
          subst hxyeq
          rw [ih ys]
          constructor
          · intro h hlt
            cases hlt with
            | cons h' => exact h h'
            | rel h' =>
              have := (char_lt_iff x x).mp h'
              omega
          · intro h hlt
            exact h (List.Lex.cons hlt)

theorem chars_le_eq_false_of_lt (x y : List Char) (h : x < y) :
    chars_le y x = false := by
  cases hc : chars_le y x
  · rfl
  · exact absurd ((chars_le_iff y x).mp hc) (lt_iff_not_le.mp h)

theorem chars_le_total (a b : List Char) :
    chars_le a b = true ∨ chars_le b a = true := by
  induction a generalizing b with
  | nil => exact Or.inl rfl
  | cons x xs ih =>
    cases b with
    | nil => exact Or.inr rfl
    | cons y ys =>
      by_cases hxy : x.toNat < y.toNat
      · left
        unfold chars_le
        rw [if_pos hxy]
      · by_cases hyx : y.toNat < x.toNat
        · right
          unfold chars_le
          rw [if_pos hyx]
        · rcases ih ys with h | h
          · left
            unfold chars_le
            rw [if_neg hxy, if_neg hyx]
            exact h
          · right
            unfold chars_le
            rw [if_neg hyx, if_neg hxy]
            exact h

theorem chars_le_trans (a b c : List Char) :
    chars_le a b = true → chars_le b c = true → chars_le a c = true := by
  induction a generalizing b c with
  | nil =>
    intro _ _
    rfl
  | cons x xs ih =>
    cases b with
    | nil =>
      intro h _
      simp [chars_le] at h
    | cons y ys =>
      cases c with
      | nil =>
        intro _ h
        simp [chars_le] at h
      | cons z zs =>
        intro h1 h2
        unfold chars_le at h1 h2 ⊢
        by_cases hyx : y.toNat < x.toNat
        · rw [if_neg (by omega), if_pos hyx] at h1
          exact absurd h1 (by simp)
        · by_cases hzy : z.toNat < y.toNat
          · rw [if_neg (by omega), if_pos hzy] at h2
            exact absurd h2 (by simp)
          · by_cases hxy : x.toNat < y.toNat
            · rw [if_pos (by omega)]
            · by_cases hyz : y.toNat < z.toNat
              · rw [if_pos (by omega)]
              · rw [if_neg hxy, if_neg hyx] at h1
                rw [if_neg hyz, if_neg hzy] at h2
                rw [if_neg (by omega), if_neg (by omega)]
                exact ih ys zs h1 h2

/-! ### `dict_insert` -/

theorem dict_insert_length_le (logs : List (String × LogEntry)) (k : String)
    (v : LogEntry) : (dict_insert logs k v).length ≤ logs.length + 1 := by
  unfold dict_insert
  split
  · simp
  · simp

theorem dict_insert_length_pos (logs : List (String × LogEntry)) (k : String)
    (v : LogEntry) : 1 ≤ (dict_insert logs k v).length := by
  unfold dict_insert
  split
  · rename_i h
    obtain ⟨p, hp, _⟩ := List.any_eq_true.mp h
    have : 0 < logs.length := List.length_pos.mpr (by rintro rfl; cases hp)
    simpa using this
  · simp

theorem mem_dict_insert (logs : List (String × LogEntry)) (k : String)
    (v : LogEntry) (p : String × LogEntry) (hp : p ∈ dict_insert logs k v) :
    p = (k, v) ∨ p ∈ logs := by
  unfold dict_insert at hp
  split at hp
  · obtain ⟨q, hq, hqe⟩ := List.mem_map.mp hp
    by_cases h : q.1 == k
    · simp [h] at hqe
      exact Or.inl hqe.symm
    · simp [h] at hqe
      exact Or.inr (hqe ▸ hq)
  · rcases List.mem_append.mp hp with h | h
    · exact Or.inr h
    · simp at h
      exact Or.inl h

theorem self_mem_dict_insert (logs : List (String × LogEntry)) (k : String)
    (v : LogEntry) : (k, v) ∈ dict_insert logs k v := by
  unfold dict_insert
  split
  · rename_i h
    obtain ⟨p, hp, hpe⟩ := List.any_eq_true.mp h
    refine List.mem_map.mpr ⟨p, hp, ?_⟩
    simp [hpe]
  · simp

theorem mem_dict_insert_of_ne (logs : List (String × LogEntry)) (k : String)
    (v : LogEntry) (p : String × LogEntry) (hp : p ∈ logs) (hne : p.1 ≠ k) :
    p ∈ dict_insert logs k v := by
  unfold dict_insert
  split
  · refine List.mem_map.mpr ⟨p, hp, ?_⟩
    simp [hne]
  · exact List.mem_append.mpr (Or.inl hp)

/-! ### `insert_by` / `sort_by` -/

theorem mem_insert_by (le : α → α → Bool) (a : α) (l : List α) (x : α) :
    x ∈ insert_by le a l ↔ x = a ∨ x ∈ l := by
  induction l with
  | nil => simp [insert_by]
  | cons b t ih =>
    unfold insert_by
    split
    · simp
    · simp [ih]
      tauto

theorem mem_sort_by (le : α → α → Bool) (l : List α) (x : α) :
    x ∈ sort_by le l ↔ x ∈ l := by
  induction l with
  | nil => simp [sort_by]
  | cons a t ih =>
    simp [sort_by, mem_insert_by, ih]

theorem length_insert_by (le : α → α → Bool) (a : α) (l : List α) :
    (insert_by le a l).length = l.length + 1 := by
  induction l with
  | nil => rfl
  | cons b t ih =>
    unfold insert_by
    split
    · simp
    · simp [ih]

theorem length_sort_by (le : α → α → Bool) (l : List α) :
    (sort_by le l).length = l.length := by
  induction l with
  | nil => rfl
  | cons a t ih => simp [sort_by, length_insert_by, ih]

theorem pairwise_insert_by (le : α → α → Bool)
    (htot : ∀ a b, le a b = true ∨ le b a = true)
    (htrans : ∀ a b c, le a b = true → le b c = true → le a c = true)
    (a : α) (l : List α) (hl : l.Pairwise (fun x y => le x y = true)) :
    (insert_by le a l).Pairwise (fun x y => le x y = true) := by
  induction l with
  | nil => simp [insert_by]
  | cons b t ih =>
    unfold insert_by
    split
    · rename_i hab
      refine List.pairwise_cons.mpr ⟨?_, hl⟩
      intro x hx
      rcases List.mem_cons.mp hx with rfl | hx'
      · exact hab
      · exact htrans a b x hab ((List.pairwise_cons.mp hl).1 x hx')
    · rename_i hab
      have hba : le b a = true := by
        rcases htot a b with h | h
        · exact absurd h hab
        · exact h
      have ht := (List.pairwise_cons.mp hl).2
      refine List.pairwise_cons.mpr ⟨?_, ih ht⟩
      intro x hx
      rcases (mem_insert_by le a t x).mp hx with rfl | hx
      · exact hba
      · exact (List.pairwise_cons.mp hl).1 x hx

theorem pairwise_sort_by (le : α → α → Bool)
    (htot : ∀ a b, le a b = true ∨ le b a = true)
    (htrans : ∀ a b c, le a b = true → le b c = true → le a c = true)
    (l : List α) : (sort_by le l).Pairwise (fun x y => le x y = true) := by
  induction l with
  | nil => simp [sort_by]
  | cons a t ih => exact pairwise_insert_by le htot htrans a (sort_by le t) ih

theorem insert_by_cons_of_not (le : α → α → Bool) (a b : α) (s : List α)
    (h : le b a = false) :
    insert_by le b (a :: s) = a :: insert_by le b s := by
  show (if le b a then b :: a :: s else a :: insert_by le b s) = a :: insert_by le b s
  simp [h]

theorem sort_by_append_singleton_max (le : α → α → Bool) (a : α) (l : List α)
    (h : ∀ b ∈ l, le b a = false) :
    sort_by le (l ++ [a]) = a :: sort_by le l := by
  induction l with
  | nil => rfl
  | cons b t ih =>
    have hba : le b a = false := h b (by simp)
    have ht : ∀ x ∈ t, le x a = false := fun x hx => h x (by simp [hx])
    show insert_by le b (sort_by le (t ++ [a])) = a :: sort_by le (b :: t)
    rw [ih ht, insert_by_cons_of_not le a b _ hba]
    rfl

/-! ### `scan_logs` -/

theorem scan_logs_ok_of_valid (uhash : String) (limit : Nat)
    (files : List LogFile) (logs : List (String × LogEntry))
    (hvalid : ∀ f ∈ files, str_endswith f.name ".json" = true →
      f.content.isSome = true) :
    ∃ r, scan_logs uhash limit files logs = Except.ok r := by
  induction files generalizing logs with
  | nil => exact ⟨logs, rfl⟩
  | cons f rest ih =>
    have hrest : ∀ g ∈ rest, str_endswith g.name ".json" = true →
        g.content.isSome = true := fun g hg => hvalid g (by simp [hg])
    unfold scan_logs
    split
    · rename_i hjson
      have hsome := hvalid f (by simp) hjson
      obtain ⟨data, hc⟩ := Option.isSome_iff_exists.mp hsome
      simp only [hc]
      split
      · split
        · exact ⟨_, rfl⟩
        · exact ih _ hrest
      · exact ih _ hrest
    · exact ih _ hrest

theorem scan_logs_length (uhash : String) (limit : Nat)
    (files : List LogFile) (logs : List (String × LogEntry))
    (hlen : logs.length < limit) (r : List (String × LogEntry))
    (hr : scan_logs uhash limit files logs = Except.ok r) :
    r.length ≤ limit := by
  induction files generalizing logs with
  | nil =>
    unfold scan_logs at hr
    cases hr
    omega
  | cons f rest ih =>
    unfold scan_logs at hr
    split at hr
    · split at hr
      · cases hr
      · rename_i data hc
        split at hr
        · split at hr
          · rename_i hstop
            cases hr
            have hle := dict_insert_length_le logs (ts_key f data) (entry_of data)
            omega
          · rename_i hstop
            have hlt : (dict_insert logs (ts_key f data) (entry_of data)).length
                < limit := by omega
            exact ih _ hlt hr
        · exact ih _ hlen hr
    · exact ih _ hlen hr

theorem scan_logs_mem (uhash : String) (limit : Nat)
    (files : List LogFile) (logs : List (String × LogEntry))
    (r : List (String × LogEntry))
    (hr : scan_logs uhash limit files logs = Except.ok r)
    (p : String × LogEntry) (hp : p ∈ r) :
    p ∈ logs ∨ ∃ f ∈ files, ∃ d, f.content = some d ∧
      d.username_hash = some uhash ∧ p = (ts_key f d, entry_of d) := by
  induction files generalizing logs with
  | nil =>
    unfold scan_logs at hr
    cases hr
    exact Or.inl hp
  | cons f rest ih =>
    unfold scan_logs at hr
    split at hr
    · split at hr
      · cases hr
      · rename_i data hc
        split at hr
        · rename_i hmatch
          have hmatch' : data.username_hash = some uhash := by
            simpa using hmatch
          split at hr
          · cases hr
            rcases mem_dict_insert _ _ _ _ hp with hpe | hpl
            · exact Or.inr ⟨f, by simp, data, hc, hmatch', hpe⟩
            · exact Or.inl hpl
          · rcases ih _ hr with hpl | ⟨g, hg, d, hgd⟩
            · rcases mem_dict_insert _ _ _ _ hpl with hpe | hpl'
              · exact Or.inr ⟨f, by simp, data, hc, hmatch', hpe⟩
              · exact Or.inl hpl'
            · exact Or.inr ⟨g, by simp [hg], d, hgd⟩
        · rcases ih _ hr with hpl | ⟨g, hg, d, hgd⟩
          · exact Or.inl hpl
          · exact Or.inr ⟨g, by simp [hg], d, hgd⟩
    · rcases ih _ hr with hpl | ⟨g, hg, d, hgd⟩
      · exact Or.inl hpl
      · exact Or.inr ⟨g, by simp [hg], d, hgd⟩

theorem scan_logs_preserves (uhash : String) (limit : Nat)
    (files : List LogFile) (logs : List (String × LogEntry))
    (k : String) (v : LogEntry) (hkv : (k, v) ∈ logs)
    (hvalid : ∀ f ∈ files, str_endswith f.name ".json" = true →
      f.content.isSome = true)
    (hkey : ∀ f ∈ files, ∀ d, f.content = some d →
      d.username_hash = some uhash → ts_key f d ≠ k) :
    ∃ r, scan_logs uhash limit files logs = Except.ok r ∧ (k, v) ∈ r := by
  induction files generalizing logs with
  | nil => exact ⟨logs, rfl, hkv⟩
  | cons f rest ih =>
    have hvrest : ∀ g ∈ rest, str_endswith g.name ".json" = true →
        g.content.isSome = true := fun g hg => hvalid g (by simp [hg])
    have hkrest : ∀ g ∈ rest, ∀ d, g.content = some d →
        d.username_hash = some uhash → ts_key g d ≠ k :=
      fun g hg => hkey g (by simp [hg])
    unfold scan_logs
    split
    · rename_i hjson
      have hsome := hvalid f (by simp) hjson
      obtain ⟨data, hc⟩ := Option.isSome_iff_exists.mp hsome
      simp only [hc]
      split
      · rename_i hmatch
        have hmatch' : data.username_hash = some uhash := by
          simpa using hmatch
        have hne : ts_key f data ≠ k := hkey f (by simp) data hc hmatch'
        have hkv2 : (k, v) ∈ dict_insert logs (ts_key f data) (entry_of data) :=
          mem_dict_insert_of_ne _ _ _ _ hkv (by simpa using hne.symm)
        split
        · exact ⟨_, rfl, hkv2⟩
        · exact ih _ hkv2 hvrest hkrest
      · exact ih _ hkv hvrest hkrest
    · exact ih _ hkv hvrest hkrest

/-! ### `write_file` -/

theorem countP_name_eq (files : List LogFile) (n : String)
    (hnodup : (files.map LogFile.name).Nodup) :
    files.countP (fun f => f.name == n) =
      if files.any (fun f => f.name == n) then 1 else 0 := by
  induction files with
  | nil => simp
  | cons f rest ih =>
    rw [List.map_cons] at hnodup
    have h2 := List.nodup_cons.mp hnodup
    by_cases hf : (f.name == n) = true
    · have hfn : f.name = n := by simpa using hf
      have hrest0 : rest.countP (fun f => f.name == n) = 0 := by
        rw [List.countP_eq_zero]
        intro x hx hxn
        have hxn' : x.name = n := by simpa using hxn
        exact h2.1 (List.mem_map.mpr ⟨x, hx, by rw [hxn', hfn]⟩)
      simp [List.countP_cons, hf, hrest0, List.any_cons]
    · have ih' := ih h2.2
      simp only [List.countP_cons, List.any_cons]
      simp [hf, ih']

theorem write_file_countP (files : List LogFile) (n : String) (d : LogData)
    (hnodup : (files.map LogFile.name).Nodup) :
    (write_file files n d).countP (fun f => f.name == n) = 1 := by
  unfold write_file
  split
  · rename_i h
    rw [List.countP_map]
    have hcongr : List.countP ((fun f => f.name == n) ∘ fun f =>
        if f.name == n then (⟨n, some d⟩ : LogFile) else f) files =
        List.countP (fun f => f.name == n) files := by
      apply List.countP_congr
      intro f _
      by_cases hf : (f.name == n) = true
      · have hfn : f.name = n := by simpa using hf
        simp [Function.comp, hfn]
      · have hfn : ¬(f.name = n) := by simpa using hf
        simp [Function.comp, hfn]
    rw [hcongr, countP_name_eq files n hnodup, if_pos h]
  · rename_i h
    rw [List.countP_append, countP_name_eq files n hnodup,
      if_neg (by simpa using h)]
    simp [List.countP_cons]

theorem write_file_mem_new (files : List LogFile) (n : String) (d : LogData) :
    (⟨n, some d⟩ : LogFile) ∈ write_file files n d := by
  unfold write_file
  split
  · rename_i h
    obtain ⟨g, hg, hgn⟩ := List.any_eq_true.mp h
    refine List.mem_map.mpr ⟨g, hg, ?_⟩
    simp [hgn]
  · simp

theorem mem_write_file_of_ne (files : List LogFile) (n : String) (d : LogData)
    (f : LogFile) (hf : f ∈ write_file files n d) (hne : f.name ≠ n) :
    f ∈ files := by
  unfold write_file at hf
  split at hf
  · obtain ⟨g, hg, hge⟩ := List.mem_map.mp hf
    by_cases hx : g.name == n
    · rw [if_pos hx] at hge
      exact absurd (by rw [← hge]) hne
    · rw [if_neg hx] at hge
      exact hge ▸ hg
  · rcases List.mem_append.mp hf with h | h
    · exact h
    · simp at h
      exact absurd (by rw [h]) hne

theorem mem_write_file_of_mem (files : List LogFile) (n : String) (d : LogData)
    (f : LogFile) (hf : f ∈ files) (hne : f.name ≠ n) :
    f ∈ write_file files n d := by
  unfold write_file
  split
  · refine List.mem_map.mpr ⟨f, hf, ?_⟩
    rw [if_neg (by simpa using hne)]
  · exact List.mem_append.mpr (Or.inl hf)

theorem write_file_fresh (files : List LogFile) (n : String) (d : LogData)
    (h : ∀ f ∈ files, f.name ≠ n) :
    write_file files n d = files ++ [⟨n, some d⟩] := by
  unfold write_file
  rw [if_neg]
  intro hany
  obtain ⟨g, hg, hgn⟩ := List.any_eq_true.mp hany
  exact h g hg (by simpa using hgn)

theorem str_endswith_append (a b : String) : str_endswith (a ++ b) b = true := by
  unfold str_endswith
  rw [str_data_append]
  exact List.isSuffixOf_iff_suffix.mpr (List.suffix_append a.data b.data)

theorem hash_of_some (encrypt : String → String) (u : String) (hu : u ≠ "") :
    hash_of encrypt (some u) = some (encrypt u) := by
  unfold hash_of
  rw [if_pos (truthy_some_of_ne u hu)]
  rfl

/-! ## The claims -/

/-- **C1, counterexample.**  The claim says no out-of-range category ever
reaches the downstream stages and that logging never fails on an unknown
category code.  But when the classification oracle replies `"8"`, the
extracted integer 8 is not `None`, so the neutral fallback is skipped, 8
is passed to `log_interaction`, and `emotion_mapping[8]` raises
`KeyError`: the turn dies while logging. -/
theorem category_eight_reaches_logging_and_fails :
    (run_pipeline hash_fix oracle_eight (some []) "20240101_000000" "입력" none).1
      = Except.error PyErr.keyError := by decide

/-- **C1, amended.**  Only the no-digits case falls back to neutral; a
reply whose first digit run is an out-of-range integer is passed
downstream unchanged, and logging the record succeeds precisely when the
category code lies in 1–7. -/
theorem log_interaction_succeeds_iff_code_in_range
    (encrypt : String → String) (now user resp : String)
    (dir : Option (List LogFile)) (username : Option String) (score : Nat) :
    (∃ st, log_interaction encrypt now dir user score resp username = Except.ok st) ↔
      1 ≤ score ∧ score ≤ 7 := by
  rw [← emotion_mapping_isSome_iff]
  constructor
  · rintro ⟨st, hst⟩
    unfold log_interaction at hst
    cases h : emotion_mapping score with
    | none => simp [h] at hst
    | some label => simp [h]
  · intro h
    obtain ⟨label, hl⟩ := Option.isSome_iff_exists.mp h
    unfold log_interaction
    rw [hl]
    exact ⟨_, rfl⟩

/-- Witness for the amended C1 theorem at a concrete in-range input. -/
theorem log_interaction_range_witness :
    (∃ st, log_interaction hash_fix "t" (some []) "i" 3 "r" none = Except.ok st) ↔
      1 ≤ 3 ∧ 3 ≤ 7 :=
  log_interaction_succeeds_iff_code_in_range hash_fix "t" "i" "r" (some []) none 3

/-- **C2, counterexample.**  The claim says a malformed stored record is
skipped and the scan completes.  In the code `json.load` is called with
no exception handler, so one malformed record aborts the whole
retrieval. -/
theorem malformed_record_aborts_scan :
    load_previous_logs hash_fix (some [file_bad]) (some "u") 3
      = Except.error PyErr.jsonDecodeError := by decide

/-- **C2, amended.**  The scan completes (only) when every stored
`.json` record is readable; a malformed record is fatal to the whole
scan, not skipped (only files whose names lack the `.json` suffix are
skipped). -/
theorem scan_succeeds_when_all_records_readable
    (encrypt : String → String) (files : List LogFile)
    (username : Option String) (k : Nat)
    (hvalid : ∀ f ∈ files, str_endswith f.name ".json" = true →
      f.content.isSome = true) :
    ∃ res, load_previous_logs encrypt (some files) username k = Except.ok res := by
  unfold load_previous_logs
  by_cases ht : truthy username = true
  · rw [if_pos ht]
    obtain ⟨r, hr⟩ := scan_logs_ok_of_valid (encrypt (username.getD "")) k
      (sort_by file_desc files) []
      (fun f hf => hvalid f ((mem_sort_by _ _ _).mp hf))
    simp only [hr]
    exact ⟨_, rfl⟩
  · rw [if_neg ht]
    exact ⟨[], rfl⟩

/-- Witness for the amended C2 theorem on a store of readable records. -/
theorem scan_succeeds_witness :
    ∃ res, load_previous_logs hash_fix (some [file_fix]) (some "u") 3
      = Except.ok res :=
  scan_succeeds_when_all_records_readable hash_fix [file_fix] (some "u") 3
    (by decide)

/-- **C3, counterexample.**  The claim says a missing backing store (the
very first turn of a named session) degrades to an empty context and the
turn still produces a response.  In the code `os.listdir("logs")` raises
`FileNotFoundError`, which propagates and aborts the turn. -/
theorem first_turn_named_session_crashes :
    (run_pipeline hash_fix oracle_fear none "20240101_000000" "나는 너무 무서워요"
      (some "bob")).1 = Except.error PyErr.fileNotFound := by decide

/-- **C3, amended.**  Only an anonymous session yields an empty context
regardless of the store; for a named session a missing store raises
`FileNotFoundError` and the turn aborts instead of continuing. -/
theorem context_empty_only_for_anonymous
    (encrypt : String → String) (k : Nat) (username : Option String) :
    (truthy username = false →
      ∀ dir, load_previous_logs encrypt dir username k = Except.ok []) ∧
    (truthy username = true →
      load_previous_logs encrypt none username k
        = Except.error PyErr.fileNotFound) := by
  constructor
  · intro h dir
    unfold load_previous_logs
    rw [if_neg (by simp [h])]
  · intro h
    unfold load_previous_logs
    rw [if_pos h]

/-- Witness for the amended C3 theorem at concrete inputs. -/
theorem context_anonymous_witness :
    load_previous_logs hash_fix (some [file_fix]) none 3 = Except.ok [] ∧
    load_previous_logs hash_fix none (some "bob") 3
      = Except.error PyErr.fileNotFound :=
  ⟨(context_empty_only_for_anonymous hash_fix 3 none).1 (by decide)
      (some [file_fix]),
   (context_empty_only_for_anonymous hash_fix 3 (some "bob")).2 (by decide)⟩

/-- **C4, counterexample.**  The claim says `recent(h, k)` returns at
most `k` records for every `k ≥ 0`.  The break condition `len(logs) >=
limit` is only checked after an insertion, so with `limit = 0` one
matching record is still returned. -/
theorem limit_zero_returns_a_record :
    load_previous_logs hash_fix (some [file_fix]) (some "u") 0
      = Except.ok [("20240101_000000", ⟨"i", "r"⟩)] := by decide

/-- **C4, amended.**  For `k ≥ 1` the scan returns at most `k` records
(for `k = 0` it may return one); every returned record comes from a
stored record whose `username_hash` equals the caller's hash; the result
is ordered by ascending timestamp key (chronological, oldest first); and
a null identity always yields an empty result. -/
theorem recent_bounded_filtered_ordered
    (encrypt : String → String) (files : List LogFile) (u : String) (k : Nat) :
    (∀ dir, load_previous_logs encrypt dir none k = Except.ok []) ∧
    (∀ res, u ≠ "" →
      load_previous_logs encrypt (some files) (some u) k = Except.ok res →
      (1 ≤ k → res.length ≤ k) ∧
      res.Pairwise (fun a b => a.1 ≤ b.1) ∧
      (∀ p ∈ res, ∃ f ∈ files, ∃ d, f.content = some d ∧
        d.username_hash = some (encrypt u) ∧ p = (ts_key f d, entry_of d))) := by
  constructor
  · intro dir
    unfold load_previous_logs
    rw [if_neg (by simp [truthy])]
  · intro res hu hload
    unfold load_previous_logs at hload
    rw [if_pos (truthy_some_of_ne u hu)] at hload
    simp only [Option.getD_some] at hload
    cases hscan : scan_logs (encrypt u) k
        (sort_by file_desc files) [] with
    | error e => simp [hscan] at hload
    | ok logs =>
      simp only [hscan] at hload
      have hres : res = sort_by entry_asc logs := (Except.ok.inj hload).symm
      subst hres
      refine ⟨?_, ?_, ?_⟩
      · intro hk
        rw [length_sort_by]
        exact scan_logs_length _ k _ [] (by simpa using hk) logs hscan
      · have hp := pairwise_sort_by entry_asc
          (fun a b => chars_le_total a.1.data b.1.data)
          (fun a b c hab hbc => chars_le_trans a.1.data b.1.data c.1.data hab hbc)
          logs
        refine hp.imp ?_
        intro a b h
        exact String.le_iff_toList_le.mpr ((chars_le_iff a.1.data b.1.data).mp h)
      · intro p hp
        have hpl := (mem_sort_by entry_asc logs p).mp hp
        rcases scan_logs_mem _ k _ [] logs hscan p hpl with h0 | ⟨f, hf, d, hd⟩
        · cases h0
        · exact ⟨f, (mem_sort_by file_desc files f).mp hf, d, hd⟩

/-- Witness for the amended C4 theorem at a concrete store and limit. -/
theorem recent_contract_witness :
    (1 ≤ 3 →
      ([(("20240101_000000" : String), (⟨"i", "r"⟩ : LogEntry))]).length ≤ 3) ∧
    ([(("20240101_000000" : String), (⟨"i", "r"⟩ : LogEntry))]).Pairwise
      (fun a b => a.1 ≤ b.1) ∧
    (∀ p ∈ [(("20240101_000000" : String), (⟨"i", "r"⟩ : LogEntry))],
      ∃ f ∈ [file_fix], ∃ d, f.content = some d ∧
        d.username_hash = some (hash_fix "u") ∧ p = (ts_key f d, entry_of d)) :=
  (recent_bounded_filtered_ordered hash_fix [file_fix] "u" 3).2
    [("20240101_000000", ⟨"i", "r"⟩)] (by decide) (by decide)

/-- **C5, confirmed.**  The classifier extracts the first run of digits
from the oracle's reply; when the (stripped) reply contains no digit the
classification is absent and `run_pipeline` substitutes neutral (code 3)
exactly once: the turn completes normally, the oracle-call trace contains
exactly one classification call and no retry and no risk-detector call,
and the logged record and synthesis prompt carry the neutral label
`"중립"`. -/
theorem no_digits_falls_back_to_neutral_once
    (encrypt : String → String) (oracle : Oracle) (dir : Option (List LogFile))
    (now user : String) (username : Option String)
    (preReply sReply finalReply : String) (logs : List (String × LogEntry))
    (h1 : oracle (OracleCall.preprocess (preprocess_prompt user)) = some preReply)
    (h2 : oracle (OracleCall.sentiment
      (sentiment_prompt (str_strip preReply))) = some sReply)
    (hnd : ∀ c ∈ (str_strip sReply).data, c.isDigit = false)
    (hload : load_previous_logs encrypt dir username 3 = Except.ok logs)
    (h3 : oracle (OracleCall.respond
      (full_prompt_of logs empathy_instruction "중립" user)) = some finalReply) :
    run_pipeline encrypt oracle dir now user username =
      (Except.ok (str_strip finalReply),
       some (write_file (dir.getD []) (now ++ ".json")
         ⟨some now, some "중립", some (str_strip finalReply), some user,
          hash_of encrypt username⟩),
       [OracleCall.preprocess (preprocess_prompt user),
        OracleCall.sentiment (sentiment_prompt (str_strip preReply)),
        OracleCall.respond
          (full_prompt_of logs empathy_instruction "중립" user)]) := by
  have hext : extract_integer (str_strip sReply) = none :=
    extract_integer_eq_none _ hnd
  have hneg : is_negative_emotion 3 = false := by decide
  have hdom : emotion_mapping 3 = some "중립" := by decide
  have e1 : preprocess_input_with_openai oracle user =
      (Except.ok (str_strip preReply),
       [OracleCall.preprocess (preprocess_prompt user)]) := by
    simp only [preprocess_input_with_openai, h1]
  have e2 : get_sentiment_score oracle (str_strip preReply) =
      (Except.ok none,
       [OracleCall.sentiment (sentiment_prompt (str_strip preReply))]) := by
    simp only [get_sentiment_score, h2, hext]
  have e3 : analyze_user_input oracle user =
      (Except.ok none,
       [OracleCall.preprocess (preprocess_prompt user),
        OracleCall.sentiment (sentiment_prompt (str_strip preReply))]) := by
    simp only [analyze_user_input, e1, e2]
    rfl
  have e4 : generate_response encrypt oracle dir 3 user username =
      (Except.ok (str_strip finalReply),
       [OracleCall.respond
         (full_prompt_of logs empathy_instruction "중립" user)]) := by
    simp only [generate_response, hload, hneg, hdom, Option.getD_some,
      Bool.false_eq_true, if_false, h3, List.nil_append]
  have e5 : log_interaction encrypt now dir user 3 (str_strip finalReply)
      username = Except.ok (write_file (dir.getD []) (now ++ ".json")
        ⟨some now, some "중립", some (str_strip finalReply), some user,
         hash_of encrypt username⟩) := by
    simp only [log_interaction, hdom]
  simp only [run_pipeline, e3, Option.getD_none, e4, e5]
  rfl

/-- Witness for the C5 theorem: a concrete run whose classification
reply `"모르겠어요"` has no digits. -/
theorem neutral_fallback_witness :
    run_pipeline hash_fix oracle_neutral (some []) "t" "몰라" none =
      (Except.ok (str_strip "ok"),
       some (write_file [] ("t" ++ ".json")
         ⟨some "t", some "중립", some (str_strip "ok"), some "몰라",
          hash_of hash_fix none⟩),
       [OracleCall.preprocess (preprocess_prompt "몰라"),
        OracleCall.sentiment (sentiment_prompt (str_strip "ok")),
        OracleCall.respond
          (full_prompt_of [] empathy_instruction "중립" "몰라")]) :=
  no_digits_falls_back_to_neutral_once hash_fix oracle_neutral (some []) "t"
    "몰라" none "ok" "모르겠어요" "ok" [] rfl rfl (by decide) rfl rfl

/-- **C6, confirmed.**  A turn writes at most one Interaction Record,
and only after a response was synthesized: if the pipeline raises (an
oracle failure, a context-read failure, or a logging `KeyError`), the
log directory is returned unchanged and nothing was written; if the
turn succeeds, the store holds exactly one record under the turn's
timestamp key, carrying the turn's input and the synthesized response,
and every other record is untouched. -/
theorem turn_logged_exactly_once
    (encrypt : String → String) (oracle : Oracle) (dir : Option (List LogFile))
    (now user : String) (username : Option String)
    (res : Except PyErr String) (dir' : Option (List LogFile))
    (tr : List OracleCall)
    (hnodup : ((dir.getD []).map LogFile.name).Nodup)
    (hrun : run_pipeline encrypt oracle dir now user username = (res, dir', tr)) :
    (∀ e, res = Except.error e → dir' = dir) ∧
    (∀ resp, res = Except.ok resp →
      ∃ files1, dir' = some files1 ∧
        files1.countP (fun f => f.name == now ++ ".json") = 1 ∧
        (∃ f ∈ files1, f.name = now ++ ".json" ∧ ∃ d, f.content = some d ∧
          d.user_input = some user ∧ d.response = some resp ∧
          d.timestamp = some now ∧ d.username_hash = hash_of encrypt username) ∧
        (∀ f ∈ files1, f.name ≠ now ++ ".json" → f ∈ dir.getD []) ∧
        (∀ f ∈ dir.getD [], f.name ≠ now ++ ".json" → f ∈ files1)) := by
  unfold run_pipeline at hrun
  split at hrun
  · simp only [Prod.mk.injEq] at hrun
    obtain ⟨rfl, rfl, rfl⟩ := hrun
    constructor
    · intro e' _
      rfl
    · intro resp h
      exact Except.noConfusion h
  · rename_i s0 tr0 heq
    split at hrun
    · simp only [Prod.mk.injEq] at hrun
      obtain ⟨rfl, rfl, rfl⟩ := hrun
      constructor
      · intro e' _
        rfl
      · intro resp h
        exact Except.noConfusion h
    · rename_i response tr2 heq2
      split at hrun
      · simp only [Prod.mk.injEq] at hrun
        obtain ⟨rfl, rfl, rfl⟩ := hrun
        constructor
        · intro e' _
          rfl
        · intro resp h
          exact Except.noConfusion h
      · rename_i files2 heq3
        simp only [Prod.mk.injEq] at hrun
        obtain ⟨rfl, rfl, rfl⟩ := hrun
        constructor
        · intro e' h
          exact Except.noConfusion h
        · intro resp h
          have hresp : response = resp := Except.ok.inj h
          subst hresp
          unfold log_interaction at heq3
          split at heq3
          · cases heq3
          · rename_i label hlab
            have hf2 : files2 = write_file (dir.getD []) (now ++ ".json")
                ⟨some now, some label, some response, some user,
                 hash_of encrypt username⟩ := (Except.ok.inj heq3).symm
            subst hf2
            refine ⟨_, rfl, write_file_countP _ _ _ hnodup, ?_, ?_, ?_⟩
            · exact ⟨⟨now ++ ".json",
                some ⟨some now, some label, some response, some user,
                  hash_of encrypt username⟩⟩,
                write_file_mem_new _ _ _, rfl, _, rfl, rfl, rfl, rfl, rfl⟩
            · intro f hf hne
              exact mem_write_file_of_ne _ _ _ f hf hne
            · intro f hf hne
              exact mem_write_file_of_mem _ _ _ f hf hne

/-- Witness for the C6 theorem: a failed turn leaves the store
unchanged; a successful turn yields exactly one record for its
timestamp. -/
theorem turn_logging_witness :
    ((some [file_fix] : Option (List LogFile)) = some [file_fix]) ∧
    (∃ files1,
      (some [(⟨"t" ++ ".json",
        some ⟨some "t", some "공포", some "ok", some "x",
          hash_of hash_fix none⟩⟩ : LogFile)] : Option (List LogFile))
        = some files1 ∧
      files1.countP (fun f => f.name == "t" ++ ".json") = 1 ∧
      (∃ f ∈ files1, f.name = "t" ++ ".json" ∧ ∃ d, f.content = some d ∧
        d.user_input = some "x" ∧ d.response = some "ok" ∧
        d.timestamp = some "t" ∧ d.username_hash = hash_of hash_fix none) ∧
      (∀ f ∈ files1, f.name ≠ "t" ++ ".json" →
        f ∈ (((some []) : Option (List LogFile)).getD [])) ∧
      (∀ f ∈ (((some []) : Option (List LogFile)).getD []),
        f.name ≠ "t" ++ ".json" → f ∈ files1)) :=
  ⟨(turn_logged_exactly_once hash_fix oracle_down (some [file_fix]) "t" "x" none
      (Except.error PyErr.oracleFailure) (some [file_fix])
      [OracleCall.preprocess (preprocess_prompt "x")] (by decide) rfl).1
      PyErr.oracleFailure rfl,
   (turn_logged_exactly_once hash_fix oracle_fear (some []) "t" "x" none
      (Except.ok "ok")
      (some [⟨"t" ++ ".json",
        some ⟨some "t", some "공포", some "ok", some "x",
          hash_of hash_fix none⟩⟩])
      [OracleCall.preprocess (preprocess_prompt "x"),
       OracleCall.sentiment (sentiment_prompt (str_strip "ok")),
       OracleCall.warning (warning_prompt "x"),
       OracleCall.respond
         (full_prompt_of [] negative_instruction "공포" "x")]
      (by decide) (by decide)).2 "ok" rfl⟩

/-- **C7, confirmed.**  Within a turn whose context retrieval succeeds,
the risk detector is invoked if and only if the classified emotion code
is in the negative set {1, 4, 5, 6}; and when it is invoked, its oracle
call comes first in the synthesis trace — before the response prompt is
sent. -/
theorem risk_detector_iff_negative_emotion
    (encrypt : String → String) (oracle : Oracle) (dir : Option (List LogFile))
    (score : Nat) (user : String) (username : Option String)
    (logs : List (String × LogEntry))
    (hload : load_previous_logs encrypt dir username 3 = Except.ok logs) :
    ((∃ p, OracleCall.warning p ∈
        (generate_response encrypt oracle dir score user username).2) ↔
      is_negative_emotion score = true) ∧
    (is_negative_emotion score = true →
      ∃ rest, (generate_response encrypt oracle dir score user username).2 =
        OracleCall.warning (warning_prompt user) :: rest) := by
  cases hneg : is_negative_emotion score
  · have htr : (generate_response encrypt oracle dir score user username).2 =
        [OracleCall.respond (full_prompt_of logs empathy_instruction
          ((emotion_mapping score).getD "알 수 없음") user)] := by
      simp only [generate_response, hload, hneg, Bool.false_eq_true, if_false]
      cases oracle (OracleCall.respond (full_prompt_of logs empathy_instruction
          ((emotion_mapping score).getD "알 수 없음") user)) <;> simp
    constructor
    · rw [htr]
      constructor
      · rintro ⟨p, hp⟩
        simp at hp
      · intro h
        exact Bool.noConfusion h
    · intro h
      exact Bool.noConfusion h
  · have htr : ∃ rest,
        (generate_response encrypt oracle dir score user username).2 =
          OracleCall.warning (warning_prompt user) :: rest := by
      simp only [generate_response, hload, hneg, if_true, is_warning_signal]
      cases hw : oracle (OracleCall.warning (warning_prompt user)) with
      | none => simp
      | some reply =>
        cases hb : contains_sub "true".data (str_lower (str_strip reply)).data
        · simp only [hb, Bool.false_eq_true, if_false]
          cases oracle (OracleCall.respond (full_prompt_of logs
              negative_instruction
              ((emotion_mapping score).getD "알 수 없음") user)) <;> simp
        · simp only [hb, if_true]
          cases oracle (OracleCall.respond (full_prompt_of logs
              crisis_instruction
              ((emotion_mapping score).getD "알 수 없음") user)) <;> simp
    obtain ⟨rest, htr⟩ := htr
    constructor
    · constructor
      · intro _
        rfl
      · intro _
        exact ⟨warning_prompt user, by
          rw [htr]
          exact List.mem_cons_self _ _⟩
    · intro _
      exact ⟨rest, htr⟩

/-- Witness for the C7 theorem: fear (code 1) triggers the risk call
first; the anonymous empty context loads successfully. -/
theorem risk_gate_witness :
    ((∃ p, OracleCall.warning p ∈
        (generate_response hash_fix oracle_fear (some []) 1 "x" none).2) ↔
      is_negative_emotion 1 = true) ∧
    (is_negative_emotion 1 = true →
      ∃ rest, (generate_response hash_fix oracle_fear (some []) 1 "x" none).2 =
        OracleCall.warning (warning_prompt "x") :: rest) :=
  risk_detector_iff_negative_emotion hash_fix oracle_fear (some []) 1 "x"
    none [] rfl

/-- **C8, confirmed.**  `is_warning_signal` answers `true` exactly when
the case-normalized (stripped, lower-cased) oracle reply contains the
literal token `"true"` as a substring; any other reply — including an
indeterminate one that is neither a clear yes nor a clear no — yields
`false`. -/
theorem warning_true_iff_token_in_reply
    (oracle : Oracle) (user reply : String) (b : Bool)
    (h : oracle (OracleCall.warning (warning_prompt user)) = some reply)
    (hres : (is_warning_signal oracle user).1 = Except.ok b) :
    b = true ↔ ∃ s1 s2 : String,
      str_lower (str_strip reply) = s1 ++ "true" ++ s2 := by
  have hb : b = contains_sub "true".data (str_lower (str_strip reply)).data := by
    simp only [is_warning_signal, h] at hres
    exact (Except.ok.inj hres).symm
  subst hb
  rw [contains_sub_iff]
  constructor
  · rintro ⟨l, r, hlr⟩
    refine ⟨⟨l⟩, ⟨r⟩, ?_⟩
    apply String.ext
    simp only [str_data_append, List.append_assoc]
    simpa using hlr
  · rintro ⟨s1, s2, hs⟩
    refine ⟨s1.data, s2.data, ?_⟩
    rw [hs]
    simp [str_data_append, List.append_assoc]

/-- Witness for the C8 theorem: the reply `" True. "` case-normalizes to
`"true."`, which contains the affirmative token. -/
theorem warning_token_witness :
    true = true ↔ ∃ s1 s2 : String,
      str_lower (str_strip " True. ") = s1 ++ "true" ++ s2 :=
  warning_true_iff_token_in_reply oracle_yes "x" " True. " true rfl rfl

/-- **C10, confirmed.**  A termination phrase takes the farewell path:
the turn produces the (stripped) closing message from a single farewell
oracle call, the log store is returned unchanged, and the trace contains
no classification, preprocessing, risk-detection or synthesis call. -/
theorem farewell_no_side_effects
    (encrypt : String → String) (oracle : Oracle) (dir : Option (List LogFile))
    (now raw : String) (username : Option String) (reply : String)
    (hfare : farewell_phrases.contains (str_lower (str_strip raw)) = true)
    (horacle : oracle (OracleCall.farewell (farewell_prompt_of username))
      = some reply) :
    main_turn encrypt oracle dir now raw username =
      (Except.ok (str_strip reply), dir,
        [OracleCall.farewell (farewell_prompt_of username)]) := by
  simp only [main_turn, hfare, if_true, generate_farewell_message, horacle]

/-- Witness for the C10 theorem: the input `" 안녕 "` strips to a
termination phrase and yields a farewell with the store untouched. -/
theorem farewell_witness :
    main_turn hash_fix oracle_bye (some [file_fix]) "t" " 안녕 " (some "u") =
      (Except.ok (str_strip " 안녕히 가세요 "), some [file_fix],
        [OracleCall.farewell (farewell_prompt_of (some "u"))]) :=
  farewell_no_side_effects hash_fix oracle_bye (some [file_fix]) "t" " 안녕 "
    (some "u") " 안녕히 가세요 " (by decide) rfl

/-- **C9, counterexample.**  The claim promises the round-trip for every
append under a non-null identity and every limit ≥ 1, but a malformed
neighbouring record in the store makes the subsequent `recent` query
raise instead of returning the freshly appended record. -/
theorem roundtrip_broken_by_malformed_neighbor :
    log_interaction hash_fix "20240102_000000" (some [file_bad]) "i" 3 "r"
        (some "u")
      = Except.ok [file_bad, ⟨"20240102_000000" ++ ".json",
          some ⟨some "20240102_000000", some "중립", some "r", some "i",
            some "HASH"⟩⟩] ∧
    load_previous_logs hash_fix (some [file_bad, ⟨"20240102_000000" ++ ".json",
          some ⟨some "20240102_000000", some "중립", some "r", some "i",
            some "HASH"⟩⟩]) (some "u") 3
      = Except.error PyErr.jsonDecodeError := by
  constructor
  · decide
  · decide

/-- **C9, amended.**  The round-trip holds when the appended record's
file name is fresh and newest, every pre-existing `.json` record is
readable, and no pre-existing record of the same identity carries the
same timestamp value: then `recent` with the same identity and any limit
≥ 1 returns a record with the written `user_input` and `response`. -/
theorem append_recent_roundtrip
    (encrypt : String → String) (dir : Option (List LogFile))
    (now user resp u : String) (score k : Nat)
    (hu : u ≠ "") (_hk : 1 ≤ k)
    (hscore : (emotion_mapping score).isSome = true)
    (hfresh : ∀ f ∈ dir.getD [], f.name < now ++ ".json")
    (hvalid : ∀ f ∈ dir.getD [], str_endswith f.name ".json" = true →
      f.content.isSome = true)
    (hts : ∀ f ∈ dir.getD [], ∀ d, f.content = some d →
      d.username_hash = some (encrypt u) → ts_key f d ≠ now) :
    ∃ files1 res1,
      log_interaction encrypt now dir user score resp (some u)
        = Except.ok files1 ∧
      load_previous_logs encrypt (some files1) (some u) k = Except.ok res1 ∧
      (now, (⟨user, resp⟩ : LogEntry)) ∈ res1 := by
  obtain ⟨label, hl⟩ := Option.isSome_iff_exists.mp hscore
  have hlog : log_interaction encrypt now dir user score resp (some u) =
      Except.ok (write_file (dir.getD []) (now ++ ".json")
        ⟨some now, some label, some resp, some user, some (encrypt u)⟩) := by
    simp only [log_interaction, hl, hash_of_some encrypt u hu]
  have hnames : ∀ f ∈ dir.getD [], f.name ≠ now ++ ".json" :=
    fun f hf => ne_of_lt (hfresh f hf)
  have hwf : write_file (dir.getD []) (now ++ ".json")
      ⟨some now, some label, some resp, some user, some (encrypt u)⟩ =
      dir.getD [] ++ [⟨now ++ ".json",
        some ⟨some now, some label, some resp, some user, some (encrypt u)⟩⟩] :=
    write_file_fresh _ _ _ hnames
  have hsort : sort_by file_desc (dir.getD [] ++ [⟨now ++ ".json",
        some ⟨some now, some label, some resp, some user, some (encrypt u)⟩⟩]) =
      (⟨now ++ ".json", some ⟨some now, some label, some resp, some user,
        some (encrypt u)⟩⟩ : LogFile) :: sort_by file_desc (dir.getD []) := by
    apply sort_by_append_singleton_max
    intro b hb
    unfold file_desc
    exact chars_le_eq_false_of_lt b.name.data (now ++ ".json").data
      (String.lt_iff_toList_lt.mp (hfresh b hb))
  have hscan : ∃ r, scan_logs (encrypt u) k
      ((⟨now ++ ".json", some ⟨some now, some label, some resp, some user,
        some (encrypt u)⟩⟩ : LogFile) :: sort_by file_desc (dir.getD [])) []
        = Except.ok r ∧
      (now, (⟨user, resp⟩ : LogEntry)) ∈ r := by
    have hend : str_endswith (now ++ ".json") ".json" = true :=
      str_endswith_append now ".json"
    simp only [scan_logs, hend, if_true, beq_self_eq_true, ts_key, entry_of,
      Option.getD_some, dict_insert, List.any_nil, Bool.false_eq_true,
      if_false, List.nil_append, List.length_singleton]
    by_cases hk1 : k ≤ 1
    · rw [if_pos hk1]
      exact ⟨_, rfl, by simp⟩
    · rw [if_neg hk1]
      exact scan_logs_preserves (encrypt u) k _ _ now ⟨user, resp⟩ (by simp)
        (fun g hg => hvalid g ((mem_sort_by _ _ _).mp hg))
        (fun g hg => hts g ((mem_sort_by _ _ _).mp hg))
  obtain ⟨r, hsr, hmem⟩ := hscan
  refine ⟨_, sort_by entry_asc r, hlog.trans (congrArg Except.ok hwf), ?_, ?_⟩
  · unfold load_previous_logs
    rw [if_pos (truthy_some_of_ne u hu)]
    simp only [Option.getD_some, hsort, hsr]
  · exact (mem_sort_by entry_asc r _).mpr hmem

/-- Witness for the amended C9 theorem: appending to an empty store and
reading back with limit 1 reproduces the written fields. -/
theorem roundtrip_witness :
    ∃ files1 res1,
      log_interaction hash_fix "t" (some []) "i" 3 "r" (some "u")
        = Except.ok files1 ∧
      load_previous_logs hash_fix (some files1) (some "u") 1
        = Except.ok res1 ∧
      ("t", (⟨"i", "r"⟩ : LogEntry)) ∈ res1 :=
  append_recent_roundtrip hash_fix (some []) "t" "i" "r" "u" 3 1 (by decide)
    (by decide) (by decide) (by intro f hf; cases hf) (by intro f hf; cases hf)
    (by intro f hf; cases hf)

end MindCare
